import Mathlib

/-!
Verification of the retort-generation streaming pipeline (Next.js API route).

Shallow embedding conventions:
* JS strings are modelled as Lean `String` and manipulated through their
  underlying `List Char`.  JS `length` counts UTF-16 code units while Lean
  counts Unicode scalar values; the two agree on all inputs without astral
  characters, which covers every string this route manipulates.
* JS `NaN` is modelled by `Option` (`none` = NaN); JS numbers are modelled
  as exact rationals.  Floating-point rounding is irrelevant here: the only
  numeric computations are intensity clamping and the two sampling-parameter
  maps, whose values are never within 1/900 of a decimal rounding boundary.
* `JSON.parse` and the regular expressions of the route are translated to
  executable Lean functions below; every recursive function is structurally
  recursive (on its input or on an explicit fuel bounded by the input size),
  so all definitions evaluate inside the kernel.
-/

/-! ## Character classes and basic string utilities -/

/-- The JS white-space class (used by `String.prototype.trim`, `\s`, and
`parseInt` leading-space skipping). -/
def isJsWhitespace (c : Char) : Bool :=
  let n := c.toNat
  c == ' ' || c == '\t' || c == '\n' || c == '\r' || c == '\x0b' || c == '\x0c' ||
  n == 0xa0 || n == 0x1680 || (0x2000 <= n && n <= 0x200a) ||
  n == 0x2028 || n == 0x2029 || n == 0x202f || n == 0x205f ||
  n == 0x3000 || n == 0xfeff

/-- The JS `\w` word-character class (for the `\b` boundary after `think`). -/
def isWordChar (c : Char) : Bool :=
  ('a' ≤ c && c ≤ 'z') || ('A' ≤ c && c ≤ 'Z') || ('0' ≤ c && c ≤ '9') || c == '_'

/-- `String.prototype.trim` (JS white-space on both ends). -/
def jsTrimList (cs : List Char) : List Char :=
  ((cs.dropWhile isJsWhitespace).reverse.dropWhile isJsWhitespace).reverse

/-- `String.prototype.trim` on strings. -/
def jsTrim (s : String) : String :=
  String.mk (jsTrimList s.data)

/-- `String.prototype.toLowerCase`, restricted to the ASCII mapping, which is
all the retry-phrase matching needs. -/
def jsToLower (s : String) : String :=
  String.mk (s.data.map Char.toLower)

/-- Strip an exact (case-sensitive) character-list prefix, returning the rest. -/
def stripPrefixExact : List Char → List Char → Option (List Char)
  | [], cs => some cs
  | _ :: _, [] => none
  | p :: ps, c :: cs => if c == p then stripPrefixExact ps cs else none

/-- Strip a case-insensitive prefix; the pattern is given in lower case. -/
def stripPrefixCI : List Char → List Char → Option (List Char)
  | [], cs => some cs
  | _ :: _, [] => none
  | p :: ps, c :: cs => if c.toLower == p then stripPrefixCI ps cs else none

/-- Whether `pat` occurs as a contiguous substring of `cs`
(JS `String.prototype.includes` for a fixed pattern). -/
def containsSubCore (pat : List Char) : List Char → Bool
  | [] => (stripPrefixExact pat []).isSome
  | c :: t => (stripPrefixExact pat (c :: t)).isSome || containsSubCore pat t

/-- JS `String.prototype.includes`. -/
def jsIncludes (s sub : String) : Bool :=
  containsSubCore sub.data s.data

/-- JS `String.prototype.startsWith`. -/
def jsStartsWith (s pre : String) : Bool :=
  (stripPrefixExact pre.data s.data).isSome

/-- Index of the first occurrence of a character (JS `indexOf`, with `none`
for `-1`). -/
def idxOfChar : List Char → Char → Option Nat
  | [], _ => none
  | c :: t, ch => if c == ch then some 0 else (idxOfChar t ch).map (· + 1)

/-- JS `String.prototype.split` with the single-character separator `"\n"`;
empty pieces are kept. -/
def splitNLCore : List Char → List Char → List (List Char)
  | [], cur => [cur.reverse]
  | c :: rest, cur =>
    if c == '\n' then cur.reverse :: splitNLCore rest []
    else splitNLCore rest (c :: cur)

/-- `event.split("\n")` as used in the SSE event loop. -/
def splitNL (s : String) : List String :=
  (splitNLCore s.data []).map String.mk

/-- JS `String.prototype.split` with a fixed multi-character separator
(leftmost, non-overlapping).  Fuel-recursive; `fuel = length + 1` is exact. -/
def splitOnSubCore (sep : List Char) : Nat → List Char → List Char → List (List Char)
  | 0, cs, cur => [cur.reverse ++ cs]
  | fuel + 1, cs, cur =>
    match stripPrefixExact sep cs with
    | some rest => cur.reverse :: splitOnSubCore sep fuel rest []
    | none =>
      match cs with
      | [] => [cur.reverse]
      | c :: t => splitOnSubCore sep fuel t (c :: cur)

/-- `buffer.split("\n\n")` as used in the SSE chunk loop. -/
def splitDoubleNL (s : String) : List String :=
  (splitOnSubCore ['\n', '\n'] (s.data.length + 1) s.data []).map String.mk

/-- JS `String.prototype.split` with the regular expression separator of one
or more newlines: a maximal run of newlines is one separator.  Fuel-recursive;
`fuel = length + 1` is exact. -/
def splitRunsCore : Nat → List Char → List Char → List (List Char)
  | 0, cs, cur => [cur.reverse ++ cs]
  | fuel + 1, cs, cur =>
    match cs with
    | [] => [cur.reverse]
    | c :: rest =>
      if c == '\n' then cur.reverse :: splitRunsCore fuel (rest.dropWhile (· == '\n')) []
      else splitRunsCore fuel rest (c :: cur)

/-- `raw.split(newline-run regular expression)` of the heuristic line split. -/
def splitRuns (s : String) : List String :=
  (splitRunsCore (s.data.length + 1) s.data []).map String.mk

/-- Newline concatenation of a list of strings (the concatenation used to
state idempotence of the extractor). -/
def joinNL : List String → String
  | [] => ""
  | [x] => x
  | x :: rest => x ++ "\n" ++ joinNL rest

/-- `Array.prototype.join` with a fixed separator. -/
def joinSep (sep : String) : List String → String
  | [] => ""
  | [x] => x
  | x :: rest => x ++ sep ++ joinSep sep rest

/-! ## JSON values and `JSON.parse`

The route calls the platform `JSON.parse` in `tryParseJsonArray` and on every
streaming `data:` payload.  We model JSON values and a recursive-descent
parser for the full JSON grammar.  Deviations from JS, none of which is
observable by this route: numbers are kept as exact rationals (the route
never reads a parsed number), and a lone UTF-16 surrogate escape decodes to
U+FFFD (Lean strings cannot hold lone surrogates; the claims never exercise
this). -/

inductive Json where
  | null : Json
  | bool (b : Bool) : Json
  | num (q : ℚ) : Json
  | str (s : String) : Json
  | arr (items : List Json) : Json
  | obj (fields : List (String × Json)) : Json

/-- JSON insignificant white space. -/
def jsonWs (c : Char) : Bool :=
  c == ' ' || c == '\t' || c == '\n' || c == '\r'

/-- Hexadecimal digit value. -/
def hexVal (c : Char) : Option Nat :=
  let n := c.toNat
  if 0x30 ≤ n && n ≤ 0x39 then some (n - 0x30)
  else if 0x61 ≤ n && n ≤ 0x66 then some (n - 0x57)
  else if 0x41 ≤ n && n ≤ 0x46 then some (n - 0x37)
  else none

/-- Parse the body of a JSON string literal (after the opening quote),
returning the decoded string and the rest of the input.  Fuel-recursive;
each step consumes at least one input character, so `fuel = length + 1`
is ample. -/
def parseJStringCore : Nat → List Char → List Char → Option (String × List Char)
  | 0, _, _ => none
  | _ + 1, [], _ => none
  | _ + 1, '"' :: rest, acc => some (String.mk acc.reverse, rest)
  | fuel + 1, '\\' :: e :: rest, acc =>
    match e with
    | '"' => parseJStringCore fuel rest ('"' :: acc)
    | '\\' => parseJStringCore fuel rest ('\\' :: acc)
    | '/' => parseJStringCore fuel rest ('/' :: acc)
    | 'b' => parseJStringCore fuel rest ('\x08' :: acc)
    | 'f' => parseJStringCore fuel rest ('\x0c' :: acc)
    | 'n' => parseJStringCore fuel rest ('\n' :: acc)
    | 'r' => parseJStringCore fuel rest ('\r' :: acc)
    | 't' => parseJStringCore fuel rest ('\t' :: acc)
    | 'u' =>
      match rest with
      | a :: b :: c :: d :: rest2 =>
        match hexVal a, hexVal b, hexVal c, hexVal d with
        | some ha, some hb, some hc, some hd =>
          let n := ((ha * 16 + hb) * 16 + hc) * 16 + hd
          if 0xd800 ≤ n && n ≤ 0xdbff then
            match rest2 with
            | '\\' :: 'u' :: a2 :: b2 :: c2 :: d2 :: rest3 =>
              match hexVal a2, hexVal b2, hexVal c2, hexVal d2 with
              | some ha2, some hb2, some hc2, some hd2 =>
                let m := ((ha2 * 16 + hb2) * 16 + hc2) * 16 + hd2
                if 0xdc00 ≤ m && m ≤ 0xdfff then
                  parseJStringCore fuel rest3
                    (Char.ofNat (0x10000 + (n - 0xd800) * 0x400 + (m - 0xdc00)) :: acc)
                else parseJStringCore fuel rest2 ('�' :: acc)
              | _, _, _, _ => parseJStringCore fuel rest2 ('�' :: acc)
            | _ => parseJStringCore fuel rest2 ('�' :: acc)
          else if 0xdc00 ≤ n && n ≤ 0xdfff then
            parseJStringCore fuel rest2 ('�' :: acc)
          else
            parseJStringCore fuel rest2 (Char.ofNat n :: acc)
        | _, _, _, _ => none
      | _ => none
    | _ => none
  | fuel + 1, c :: rest, acc =>
    if c.toNat < 0x20 then none else parseJStringCore fuel rest (c :: acc)

/-- Parse a JSON string-literal body starting right after the opening quote. -/
def parseJString (cs : List Char) : Option (String × List Char) :=
  parseJStringCore (cs.length + 1) cs []

/-- Value of one decimal digit character. -/
def decDigitVal (c : Char) : Nat :=
  c.toNat - 0x30

/-- Natural number denoted by a list of decimal digits. -/
def digitsToNat (ds : List Char) : Nat :=
  ds.foldl (fun acc c => 10 * acc + decDigitVal c) 0

/-- Parse a JSON number (grammar `-? int frac? exp?`), returning its exact
rational value and the rest of the input. -/
def parseJNumber (cs : List Char) : Option (ℚ × List Char) :=
  let neg : Bool := cs.head? == some '-'
  let cs1 := if neg then cs.drop 1 else cs
  let intResult : Option (Nat × List Char) :=
    match cs1 with
    | '0' :: t => some (0, t)
    | c :: _ =>
      if '1' ≤ c && c ≤ '9' then
        let ds := cs1.takeWhile Char.isDigit
        some (digitsToNat ds, cs1.drop ds.length)
      else none
    | [] => none
  match intResult with
  | none => none
  | some (ip, cs2) =>
    let fracResult : Option (ℚ × List Char) :=
      match cs2 with
      | '.' :: t =>
        let ds := t.takeWhile Char.isDigit
        if ds.length == 0 then none
        else some ((digitsToNat ds : ℚ) / ((10 : ℚ) ^ ds.length), t.drop ds.length)
      | _ => some (0, cs2)
    match fracResult with
    | none => none
    | some (fp, cs3) =>
      let expResult : Option (ℚ × List Char) :=
        match cs3 with
        | 'e' :: t | 'E' :: t =>
          let eneg : Bool := t.head? == some '-'
          let signed : Bool := eneg || t.head? == some '+'
          let t1 := if signed then t.drop 1 else t
          let ds := t1.takeWhile Char.isDigit
          if ds.length == 0 then none
          else
            let e := digitsToNat ds
            some (if eneg then 1 / ((10 : ℚ) ^ e) else (10 : ℚ) ^ e, t1.drop ds.length)
        | _ => some (1, cs3)
      match expResult with
      | none => none
      | some (ef, cs4) =>
        let mag : ℚ := ((ip : ℚ) + fp) * ef
        some (if neg then -mag else mag, cs4)

/-- The parsing task: a plain value, the element loop of an array, or the
member loop of an object. -/
inductive JTask where
  | val : JTask
  | elems (acc : List Json) : JTask
  | fields (acc : List (String × Json)) : JTask

/-- Recursive-descent JSON parser, structurally recursive on a fuel that the
wrapper sets to twice the input length (ample: every two fuel units consume
at least one input character). -/
def parseCore : Nat → JTask → List Char → Option (Json × List Char)
  | 0, _, _ => none
  | fuel + 1, JTask.val, cs =>
    match cs.dropWhile jsonWs with
    | [] => none
    | '[' :: rest =>
      (match rest.dropWhile jsonWs with
       | ']' :: r2 => some (Json.arr [], r2)
       | _ => parseCore fuel (JTask.elems []) rest)
    | '\x7b' :: rest =>
      (match rest.dropWhile jsonWs with
       | '\x7d' :: r2 => some (Json.obj [], r2)
       | _ => parseCore fuel (JTask.fields []) rest)
    | '"' :: rest => (parseJStringCore fuel rest []).map (fun p => (Json.str p.1, p.2))
    | 'n' :: rest => (stripPrefixExact ['u', 'l', 'l'] rest).map (fun r => (Json.null, r))
    | 't' :: rest => (stripPrefixExact ['r', 'u', 'e'] rest).map (fun r => (Json.bool true, r))
    | 'f' :: rest => (stripPrefixExact ['a', 'l', 's', 'e'] rest).map (fun r => (Json.bool false, r))
    | cs1 => (parseJNumber cs1).map (fun p => (Json.num p.1, p.2))
  | fuel + 1, JTask.elems acc, cs =>
    match parseCore fuel JTask.val cs with
    | none => none
    | some (v, rest) =>
      match rest.dropWhile jsonWs with
      | ',' :: r2 => parseCore fuel (JTask.elems (acc ++ [v])) r2
      | ']' :: r2 => some (Json.arr (acc ++ [v]), r2)
      | _ => none
  | fuel + 1, JTask.fields acc, cs =>
    match cs.dropWhile jsonWs with
    | '"' :: rest =>
      match parseJStringCore fuel rest [] with
      | none => none
      | some (k, r1) =>
        match r1.dropWhile jsonWs with
        | ':' :: r2 =>
          match parseCore fuel JTask.val r2 with
          | none => none
          | some (v, r3) =>
            match r3.dropWhile jsonWs with
            | ',' :: r4 => parseCore fuel (JTask.fields (acc ++ [(k, v)])) r4
            | '\x7d' :: r4 => some (Json.obj (acc ++ [(k, v)]), r4)
            | _ => none
        | _ => none
    | _ => none

/-- `JSON.parse`: parse a whole string as one JSON value; `none` models a
thrown `SyntaxError`. -/
def parseJson (s : String) : Option Json :=
  match parseCore (2 * s.data.length + 4) JTask.val s.data with
  | some (v, rest) => if rest.dropWhile jsonWs == [] then some v else none
  | none => none

/-- Last-wins field lookup on a parsed JSON object (JS duplicate object keys
overwrite earlier ones). -/
def getField (fields : List (String × Json)) (key : String) : Option Json :=
  (fields.reverse.find? (fun kv => kv.1 == key)).map (fun kv => kv.2)

/-! ## Intensity handling and sampling parameters -/

def MIN_INTENSITY : ℚ := 1
def MAX_INTENSITY : ℚ := 10
def DEFAULT_INTENSITY : ℚ := 6

/-- `clampIntensity` from the route.  The JS `NaN` check is modelled by the
`Option` argument: `none` is `NaN` and yields the default. -/
def clampIntensity (value : Option ℚ) : ℚ :=
  match value with
  | none => DEFAULT_INTENSITY
  | some q => min (max q MIN_INTENSITY) MAX_INTENSITY

/-- `Number.parseInt(s, 10)`: skip leading JS white space, read an optional
sign and then a maximal run of decimal digits; `none` models `NaN` (no
digits).  JS would round integers above 2^53 to a nearby float, but every
result here is immediately clamped into [1,10], where the two agree. -/
def parseIntJS (s : String) : Option ℤ :=
  let cs := s.data.dropWhile isJsWhitespace
  let (neg, cs1) :=
    match cs with
    | '-' :: t => (true, t)
    | '+' :: t => (false, t)
    | _ => (false, cs)
  let ds := cs1.takeWhile Char.isDigit
  if ds.isEmpty then none
  else some (if neg then -(digitsToNat ds : ℤ) else (digitsToNat ds : ℤ))

/-- The JSON value supplied for `intensity` in the request body, as seen by
the `typeof` dispatch: a number, a string, or anything else (absent, null,
boolean, object, array). -/
inductive IntensityValue where
  | num (q : ℚ) : IntensityValue
  | str (s : String) : IntensityValue
  | other : IntensityValue

/-- The `parsedIntensity` computation of the POST handler. -/
def parsedIntensity (intensity : IntensityValue) : ℚ :=
  match intensity with
  | IntensityValue.num q => clampIntensity (some q)
  | IntensityValue.str s => clampIntensity ((parseIntJS s).map (fun n => (n : ℚ)))
  | IntensityValue.other => DEFAULT_INTENSITY

/-- `Number(x.toFixed(2))` for the non-negative values produced here: round
to the nearest hundredth, ties upward.  No value of the two maps below is
within 1/900 of a tie, so the float detour of JS changes nothing. -/
def toFixed2 (q : ℚ) : ℚ :=
  (⌊q * 100 + 1 / 2⌋ : ℚ) / 100

/-- `mapIntensityToTemperature` from the route. -/
def mapIntensityToTemperature (intensity : ℚ) : ℚ :=
  let normalized := (intensity - MIN_INTENSITY) / (MAX_INTENSITY - MIN_INTENSITY)
  toFixed2 (35 / 100 + normalized * (65 / 100))

/-- `mapIntensityToPresencePenalty` from the route. -/
def mapIntensityToPresencePenalty (intensity : ℚ) : ℚ :=
  let normalized := (intensity - MIN_INTENSITY) / (MAX_INTENSITY - MIN_INTENSITY)
  toFixed2 (1 / 10 + normalized * (8 / 10))

/-! ## Sanitizing the think block -/

/-- Lower-case characters of the opening tag. -/
def thinkOpenPat : List Char := ['<', 't', 'h', 'i', 'n', 'k']

/-- Lower-case characters of the closing tag. -/
def thinkClosePat : List Char := ['<', '/', 't', 'h', 'i', 'n', 'k', '>']

/-- Scan for the first case-insensitive occurrence of the closing tag and
return the input after it. -/
def findCloseThink : List Char → Option (List Char)
  | [] => none
  | c :: t =>
    match stripPrefixCI thinkClosePat (c :: t) with
    | some r => some r
    | none => findCloseThink t

/-- Match the regular expression of `sanitizeContent` at the start of the
input: case-insensitive `<think`, a word boundary, a run of characters other
than the closing angle bracket, that bracket, then lazily anything up to the
first case-insensitive closing tag.  Returns the input after the match. -/
def matchThinkAt (cs : List Char) : Option (List Char) :=
  match stripPrefixCI thinkOpenPat cs with
  | none => none
  | some [] => none
  | some (c :: rest) =>
    if isWordChar c then none
    else
      match (c :: rest).dropWhile (fun x => x != '>') with
      | [] => none
      | _ :: after => findCloseThink after

/-- One global-replace pass: scan left to right, removing every leftmost
non-overlapping match.  Fuel-recursive; every step consumes at least one
character. -/
def removeThinkCore : Nat → List Char → List Char
  | 0, cs => cs
  | fuel + 1, cs =>
    match matchThinkAt cs with
    | some rest => removeThinkCore fuel rest
    | none =>
      match cs with
      | [] => []
      | c :: t => c :: removeThinkCore fuel t

/-- `sanitizeContent` from the route: one global replacement of the think
block, then `trim` (with the early return on the empty string). -/
def sanitizeContent (raw : String) : String :=
  if raw = "" then ""
  else jsTrim (String.mk (removeThinkCore (raw.data.length + 1) raw.data))

/-! ## The three extraction strategies -/

/-- `tryParseJsonArray` from the route: parse as JSON, and from an array keep
the string elements, trimmed, non-empty, at most the first three.  A parse
error (caught in JS) and the falsy-input guard both yield the empty list. -/
def tryParseJsonArray (raw : String) : List String :=
  if raw = "" then []
  else
    match parseJson raw with
    | some (Json.arr items) =>
      ((((items.filterMap (fun item =>
            match item with
            | Json.str s => some s
            | _ => none)).map jsTrim).filter (fun s => s != "")).take 3)
    | _ => []

/-- `extractJsonArrayFromText` from the route: the slice from the first
opening bracket to the last closing bracket, when both exist in that order. -/
def extractJsonArrayFromText (raw : String) : Option String :=
  if raw = "" then none
  else
    match idxOfChar raw.data '[', (idxOfChar raw.data.reverse ']').map
        (fun i => raw.data.length - 1 - i) with
    | some s, some e =>
      if e ≤ s then none
      else some (String.mk ((raw.data.drop s).take (e - s + 1)))
    | _, _ => none

/-- The denylist of reply-line starts in `isLikelyReply`. -/
def disallowedStarts : List String := ["场景", "角色", "输出", "说明", "提示"]

/-- The terminal sentence punctuation class of `isLikelyReply`. -/
def sentencePunctChars : List Char := ['。', '？', '！', '?', '!', '…', '～', '~']

/-- Test of the sentence-punctuation regular expression. -/
def hasSentencePunct (line : String) : Bool :=
  line.data.any (fun c => sentencePunctChars.contains c)

/-- Test of the CJK-ideograph regular expression (U+4E00 to U+9FA5). -/
def hasCJK (line : String) : Bool :=
  line.data.any (fun c => 0x4e00 ≤ c.toNat && c.toNat ≤ 0x9fa5)

/-- `isLikelyReply` from the route. -/
def isLikelyReply (line : String) : Bool :=
  if line.length < 6 then false
  else if disallowedStarts.any (fun p => jsStartsWith line p) then false
  else if hasSentencePunct line then true
  else hasCJK line && decide (8 ≤ line.length)

/-- Character class of the leading-marker stripper in `fallbackSplit`
(white space, digits, dash, bullet, enumeration comma, dot). -/
def isMarkerChar (c : Char) : Bool :=
  isJsWhitespace c || c.isDigit || c == '-' || c == '•' || c == '、' || c == '.'

/-- `line.replace(leading-marker regular expression, "").trim()` of the
heuristic split. -/
def stripLineMarkers (line : String) : String :=
  jsTrim (String.mk (line.data.dropWhile isMarkerChar))

/-- Test of the anchored pattern `<think`, word boundary, non-bracket run,
closing angle bracket (first entry of `forbiddenPatterns`). -/
def thinkOpenLineTest (cs : List Char) : Bool :=
  match stripPrefixCI thinkOpenPat cs with
  | some (c :: rest) => !(isWordChar c) && (c :: rest).contains '>'
  | _ => false

/-- An anchored `prefix[:：]` pattern (half- or full-width colon). -/
def colonStart (line : String) (p : String) : Bool :=
  jsStartsWith line (p ++ ":") || jsStartsWith line (p ++ "：")

/-- Anchored pattern: a fixed first word, then `JSON` or a second word within
the same line (the `[^\n]*` of the source; the lines fed to it contain no
newline by construction of the split). -/
def headThenWithin (line : String) (head within : String) : Bool :=
  match stripPrefixExact head.data line.data with
  | some rest => containsSubCore within.data (rest.takeWhile (fun c => c != '\n'))
  | none => false

/-- `forbiddenPatterns.some(pattern => pattern.test(line))` of `fallbackSplit`. -/
def isForbiddenLine (line : String) : Bool :=
  thinkOpenLineTest line.data ||
  (stripPrefixCI thinkClosePat line.data).isSome ||
  colonStart line "场景" ||
  colonStart line "我的角色" ||
  headThenWithin line "请" "JSON" ||
  headThenWithin line "用户" "要求" ||
  colonStart line "思考" ||
  colonStart line "角色设定"

/-- `forbiddenKeywords` of `fallbackSplit`. -/
def forbiddenKeywords : List String :=
  ["场景：", "输出必须", "高情商反击", "关键点", "不要输出", "请确保", "JSON"]

/-- `forbiddenKeywords.some(keyword => line.includes(keyword))`. -/
def hasForbiddenKeyword (line : String) : Bool :=
  forbiddenKeywords.any (fun k => jsIncludes line k)

/-- `fallbackSplit` from the route: split on newline runs, strip leading
markers and trim, drop empties, drop denylisted lines, keep likely replies,
take at most three. -/
def fallbackSplit (raw : String) : List String :=
  if raw = "" then []
  else
    ((((((splitRuns raw).map stripLineMarkers).filter (fun l => l != "")).filter
        (fun l => !(isForbiddenLine l))).filter
        (fun l => !(hasForbiddenKeyword l))).filter (fun l => isLikelyReply l)).take 3

/-- The strategy chain of `collectReplies` after sanitization: strict JSON
array, then the bracket-extracted substring, then the heuristic split. -/
def extractionStrategies (sanitized : String) : List String :=
  let parsed := tryParseJsonArray sanitized
  if parsed ≠ [] then parsed
  else
    match extractJsonArrayFromText sanitized with
    | some extracted =>
      let extractedParsed := tryParseJsonArray extracted
      if extractedParsed ≠ [] then extractedParsed else fallbackSplit sanitized
    | none => fallbackSplit sanitized

/-- `collectReplies` from the route. -/
def collectReplies (rawContent : String) : List String :=
  extractionStrategies (sanitizeContent rawContent)

/-- Side condition of conditional idempotence: one extracted reply passes
the heuristic line pipeline unchanged (non-empty, no embedded newline, a
fixed point of marker stripping, not denylisted, judged a likely reply). -/
def replyFixedB (x : String) : Bool :=
  x != "" && !(x.data.contains '\n') && (stripLineMarkers x == x) &&
  !(isForbiddenLine x) && !(hasForbiddenKeyword x) && isLikelyReply x

/-- Side condition of conditional idempotence: the JSON strategies fail on
the joined text (no bracket slice, or a slice that does not parse to a
non-empty string array). -/
def extractFailsB (j : String) : Bool :=
  match extractJsonArrayFromText j with
  | none => true
  | some e => tryParseJsonArray e == []

/-! ## Error extraction and retry policy -/

/-- Whether a JS value has `typeof x === "object"` (null, arrays and objects). -/
def jsTypeofObject : Json → Bool
  | Json.null => true
  | Json.arr _ => true
  | Json.obj _ => true
  | _ => false

/-- `extractErrorMessage` from the route.  The argument is the result of
`safeRead`: a parsed JSON body, or `none` for the null fallback.  Field
probes on non-objects fail exactly as the `in` operator does in JS. -/
def extractErrorMessage (payload : Option Json) : String :=
  let dflt := "模型接口请求失败，请稍后再试。"
  match payload with
  | some (Json.obj fields) =>
    let fromErrorField : Option String :=
      match getField fields "error" with
      | some (Json.str e) => if jsTrim e != "" then some (jsTrim e) else none
      | some (Json.obj ef) =>
        match getField ef "message" with
        | some (Json.str m) => if jsTrim m != "" then some (jsTrim m) else none
        | _ => none
      | _ => none
    match fromErrorField with
    | some m => m
    | none =>
      match getField fields "message" with
      | some (Json.str m) => if jsTrim m != "" then jsTrim m else dflt
      | _ => dflt
  | _ => dflt

/-- `shouldRetry` from the route. -/
def shouldRetry (status : ℕ) (message : String) : Bool :=
  if 500 ≤ status then true
  else
    let lowered := jsToLower message
    jsIncludes lowered "provider returned error" ||
    jsIncludes lowered "no endpoints found" ||
    jsIncludes lowered "upstream error" ||
    jsIncludes lowered "temporarily unavailable"

/-- `parseModelList` from the route. -/
def parseModelList (raw : String) : List String :=
  (((raw.data.splitOn ',').map (fun cs => jsTrim (String.mk cs))).filter
    (fun s => s != ""))

/-! ## Streaming-delta content extraction -/

/-- `extractMessageContent` from the route: a plain string, a list of parts
with `text` fields joined by newlines, or an object with a string `text`. -/
def extractMessageContent (raw : Json) : String :=
  match raw with
  | Json.str s => s
  | Json.arr items =>
    joinSep "\n" (items.map (fun item =>
      match item with
      | Json.str s => s
      | Json.obj f =>
        match getField f "text" with
        | some (Json.str t) => t
        | _ => ""
      | _ => ""))
  | Json.obj f =>
    match getField f "text" with
    | some (Json.str t) => t
    | _ => ""
  | _ => ""

/-- `extractDeltaText` from the route: the content of the first choice,
through `delta.content` when a `content` key is present on an object-typed
`delta`, otherwise through an object-typed `message`. -/
def extractDeltaText (payload : Json) : String :=
  match payload with
  | Json.obj pf =>
    match getField pf "choices" with
    | some (Json.arr choices) =>
      match choices.head? with
      | some (Json.obj cf) =>
        let fromDelta : Option String :=
          match getField cf "delta" with
          | some (Json.obj df) =>
            match getField df "content" with
            | some content => some (extractMessageContent content)
            | none => none
          | _ => none
        match fromDelta with
        | some t => t
        | none =>
          match getField cf "message" with
          | some m => if jsTypeofObject m then extractMessageContent m else ""
          | _ => ""
      | _ => ""
    | _ => ""
  | _ => ""

/-- `arraysEqual` from the route. -/
def arraysEqual (a b : List String) : Bool :=
  a.length == b.length && (List.zip a b).all (fun p => p.1 == p.2)

/-! ## The streaming read loop of one model attempt

The decoded text chunks stand for the byte chunks after UTF-8 decoding
(`TextDecoder` with streaming carry is the identity on this level).  The
state mirrors the closure variables `buffer`, `aggregated`, `lastSent`, and
records the partial-frame reply lists in emission order. -/

structure SSEState where
  buffer : String
  aggregated : String
  lastSent : List String
  emitted : List (List String)
deriving DecidableEq

/-- Initial per-attempt state. -/
def initSSE : SSEState :=
  { buffer := "", aggregated := "", lastSent := [], emitted := [] }

/-- `flushPartial` from the route: recompute replies from the aggregate;
emit only a non-empty list that differs from the last one sent. -/
def flushPartial (st : SSEState) : SSEState :=
  let replies := collectReplies st.aggregated
  if replies.isEmpty then st
  else if arraysEqual replies st.lastSent then st
  else { st with lastSent := replies, emitted := st.emitted ++ [replies] }

/-- The inner loop body over one line of an SSE event: keep `data:` lines,
strip the prefix, skip empty payloads and the termination sentinel, parse
the JSON delta (a parse failure is logged and skipped), extract delta text,
append it and flush. -/
def handleDataLine (st : SSEState) (rawLine : String) : SSEState :=
  let line := jsTrim rawLine
  match stripPrefixExact ['d', 'a', 't', 'a', ':'] line.data with
  | none => st
  | some afterColon =>
    let data := jsTrim (String.mk afterColon)
    if data = "" || data = "[DONE]" then st
    else
      match parseJson data with
      | none => st
      | some parsed =>
        let deltaText := extractDeltaText parsed
        if deltaText = "" then st
        else flushPartial { st with aggregated := st.aggregated ++ deltaText }

/-- Process one complete SSE event (split into lines). -/
def handleEvent (st : SSEState) (event : String) : SSEState :=
  (splitNL event).foldl handleDataLine st

/-- Process one decoded chunk: append to the buffer, split on blank lines,
keep the trailing incomplete event as the new buffer, process the rest. -/
def handleChunk (st : SSEState) (chunk : String) : SSEState :=
  let events := splitDoubleNL (st.buffer ++ chunk)
  let newBuffer := events.getLastD ""
  events.dropLast.foldl handleEvent { st with buffer := newBuffer }

/-- The whole read loop of one model attempt over its decoded chunks. -/
def processChunks (chunks : List String) : SSEState :=
  chunks.foldl handleChunk initSSE

/-! ## The orchestrator loop of the stream-start closure -/

/-- One frame of the newline-delimited JSON output protocol. -/
inductive Frame where
  | model (model : String) : Frame
  | part (replies : List String) : Frame
  | complete (replies : List String) : Frame
  | error (error : String) (status : ℕ) : Frame
deriving DecidableEq

/-- Entries of the `errors` array collected across candidate attempts. -/
structure FailureRecord where
  model : String
  status : ℕ
  message : String
deriving DecidableEq

/-- What the environment answers for one candidate attempt.  `exn` is a
rejected `fetch` (network failure), `httpError` a non-ok response with its
best-effort-parsed body, `noBody` an ok response without a body, and
`body chunks aborted` an ok streaming body delivering the given decoded
chunks, with `aborted = true` when a later read rejects (both rejections are
caught by the try block around the candidate loop). -/
inductive FetchResult where
  | exn : FetchResult
  | httpError (status : ℕ) (payload : Option Json) : FetchResult
  | noBody : FetchResult
  | body (chunks : List String) (aborted : Bool) : FetchResult

/-- The terminal frame of the exhaustion branch: the combined message from
all failure records (empty parts dropped, with the default when the join is
empty) and the first status, or the bare default with 502. -/
def exhaustionFrame (errors : List FailureRecord) : Frame :=
  match errors with
  | [] => Frame.error "模型接口请求失败，请稍后再试。" 502
  | firstError :: rest =>
    let combined := joinSep " ｜ "
      ((firstError.message :: rest.map (fun e => e.model ++ ": " ++ e.message)).filter
        (fun s => s != ""))
    Frame.error (if combined = "" then "模型接口请求失败，请稍后再试。" else combined)
      firstError.status

/-- The candidate loop of the stream-start closure.  The input pairs each
candidate model with what the environment returns for its fetch; `errors`
is the accumulated failure list.  The frame list is everything sent on the
output stream until the controller closes. -/
def runLoop : List (String × FetchResult) → List FailureRecord → List Frame
  | [], errors => [exhaustionFrame errors]
  | (model, res) :: rest, errors =>
    Frame.model model ::
      match res with
      | FetchResult.exn => [Frame.error "服务暂时不可用，请稍后重试。" 500]
      | FetchResult.httpError status payload =>
        let msg := extractErrorMessage payload
        if shouldRetry status msg then
          runLoop rest (errors ++ [⟨model, status, msg⟩])
        else [Frame.error msg status]
      | FetchResult.noBody =>
        runLoop rest (errors ++ [⟨model, 502, "模型返回空响应，请稍后再试。"⟩])
      | FetchResult.body chunks aborted =>
        let st := processChunks chunks
        st.emitted.map Frame.part ++
          (if aborted then [Frame.error "服务暂时不可用，请稍后重试。" 500]
           else
             let replies := collectReplies (jsTrim st.aggregated)
             if replies.isEmpty then
               runLoop rest (errors ++ [⟨model, 502, "模型暂时给不出答案，请换个描述再试试。"⟩])
             else [Frame.complete replies])

/-- The whole start closure: run the candidate loop with no collected
failures. -/
def runStart (env : List (String × FetchResult)) : List Frame :=
  runLoop env []

/-- Terminal frames of the protocol. -/
def isTerminal : Frame → Bool
  | Frame.complete _ => true
  | Frame.error _ _ => true
  | _ => false

/-- Execution invariant of one model attempt: every emitted partial reply
list is non-empty with at most three entries, consecutive emissions differ,
and the last emission (when any) is the remembered `lastSent`. -/
def SSEInv (st : SSEState) : Prop :=
  (∀ p ∈ st.emitted, p ≠ [] ∧ p.length ≤ 3) ∧
  List.Chain' (fun a b => a ≠ b) st.emitted ∧
  (st.emitted.getLast? = some st.lastSent ∨ (st.emitted = [] ∧ st.lastSent = []))

/-! ## Helper lemmas -/

theorem isTerminal_exhaustionFrame (errors : List FailureRecord) :
    isTerminal (exhaustionFrame errors) = true := by
  cases errors <;> rfl

theorem all_not_terminal_shape (m : String) (l : List (List String)) (pre : List Frame)
    (hpre : pre.all (fun f => !(isTerminal f)) = true) :
    (Frame.model m :: (l.map Frame.part ++ pre)).all (fun f => !(isTerminal f)) = true := by
  have h1 : (List.map Frame.part l).all (fun f => !(isTerminal f)) = true := by
    simp only [List.all_eq_true, List.mem_map]
    rintro f ⟨p, hp, rfl⟩
    rfl
  rw [List.all_cons, List.all_append, hpre, h1]
  rfl

theorem runLoop_shape (env : List (String × FetchResult)) :
    ∀ errors, ∃ pre last, runLoop env errors = pre ++ [last] ∧
      isTerminal last = true ∧ pre.all (fun f => !(isTerminal f)) = true := by
  induction env with
  | nil =>
    intro errors
    exact ⟨[], exhaustionFrame errors, rfl, isTerminal_exhaustionFrame errors, rfl⟩
  | cons head rest ih =>
    intro errors
    obtain ⟨m, res⟩ := head
    cases res with
    | exn =>
      exact ⟨[Frame.model m], Frame.error "服务暂时不可用，请稍后重试。" 500, rfl, rfl, rfl⟩
    | httpError status payload =>
      by_cases h : shouldRetry status (extractErrorMessage payload) = true
      · obtain ⟨pre, last, heq, hterm, hpre⟩ :=
          ih (errors ++ [⟨m, status, extractErrorMessage payload⟩])
        refine ⟨Frame.model m :: pre, last, ?_, hterm,
          all_not_terminal_shape m [] pre hpre⟩
        simp only [runLoop, h, if_true, heq, List.cons_append]
      · refine ⟨[Frame.model m], Frame.error (extractErrorMessage payload) status, ?_, rfl, rfl⟩
        simp only [runLoop, h, if_false, Bool.false_eq_true, List.cons_append,
          List.nil_append]
    | noBody =>
      obtain ⟨pre, last, heq, hterm, hpre⟩ :=
        ih (errors ++ [⟨m, 502, "模型返回空响应，请稍后再试。"⟩])
      refine ⟨Frame.model m :: pre, last, ?_, hterm,
        all_not_terminal_shape m [] pre hpre⟩
      simp only [runLoop, heq, List.cons_append]
    | body chunks aborted =>
      cases aborted with
      | true =>
        refine ⟨Frame.model m :: (processChunks chunks).emitted.map Frame.part,
          Frame.error "服务暂时不可用，请稍后重试。" 500, ?_, rfl, ?_⟩
        · simp [runLoop]
        · have := all_not_terminal_shape m (processChunks chunks).emitted [] rfl
          simpa using this
      | false =>
        by_cases h : (collectReplies (jsTrim (processChunks chunks).aggregated)).isEmpty = true
        · obtain ⟨pre, last, heq, hterm, hpre⟩ :=
            ih (errors ++ [⟨m, 502, "模型暂时给不出答案，请换个描述再试试。"⟩])
          refine ⟨Frame.model m :: ((processChunks chunks).emitted.map Frame.part ++ pre),
            last, ?_, hterm,
            all_not_terminal_shape m (processChunks chunks).emitted pre hpre⟩
          simp [runLoop, h, heq, List.append_assoc]
        · refine ⟨Frame.model m :: (processChunks chunks).emitted.map Frame.part,
            Frame.complete (collectReplies (jsTrim (processChunks chunks).aggregated)),
            ?_, rfl, ?_⟩
          · simp [runLoop, h]
          · have := all_not_terminal_shape m (processChunks chunks).emitted [] rfl
            simpa using this

/-- C1: for every request handled by the output stream, exactly one terminal
frame (`complete` or `error`) is emitted, every `model` and `partial` frame
precedes it and no frame follows it; when an internal exception interrupts
streaming (a rejected fetch, or a rejected read after some chunks), the
terminal frame is an `error` frame instead of a crashed connection. -/
theorem stream_exactly_one_terminal_frame :
    (∀ env : List (String × FetchResult), ∃ pre last,
      runStart env = pre ++ [last] ∧ isTerminal last = true ∧
      pre.all (fun f => !(isTerminal f)) = true) ∧
    (∀ m rest, runStart ((m, FetchResult.exn) :: rest) =
      [Frame.model m, Frame.error "服务暂时不可用，请稍后重试。" 500]) ∧
    (∀ m chunks rest, runStart ((m, FetchResult.body chunks true) :: rest) =
      Frame.model m :: ((processChunks chunks).emitted.map Frame.part ++
        [Frame.error "服务暂时不可用，请稍后重试。" 500])) :=
  ⟨fun env => runLoop_shape env [], fun _ _ => rfl, fun m chunks rest => by
    simp [runStart, runLoop]⟩

theorem tryParseJsonArray_length_le (raw : String) :
    (tryParseJsonArray raw).length ≤ 3 := by
  unfold tryParseJsonArray
  split
  · simp
  · split
    · exact List.length_take_le 3 _
    · simp

theorem fallbackSplit_length_le (raw : String) :
    (fallbackSplit raw).length ≤ 3 := by
  unfold fallbackSplit
  split
  · simp
  · exact List.length_take_le 3 _

theorem collectReplies_length_le (raw : String) :
    (collectReplies raw).length ≤ 3 := by
  unfold collectReplies extractionStrategies
  by_cases h1 : tryParseJsonArray (sanitizeContent raw) = []
  · simp only [h1, ne_eq, not_true_eq_false, if_false]
    cases hex : extractJsonArrayFromText (sanitizeContent raw) with
    | none => exact fallbackSplit_length_le _
    | some e =>
      by_cases h2 : tryParseJsonArray e = []
      · simp only [h2, ne_eq, not_true_eq_false, if_false]
        exact fallbackSplit_length_le _
      · simp only [ne_eq, h2, not_false_eq_true, if_true]
        exact tryParseJsonArray_length_le _
  · simp only [ne_eq, h1, not_false_eq_true, if_true]
    exact tryParseJsonArray_length_le _

theorem arraysEqual_iff (a b : List String) : arraysEqual a b = true ↔ a = b := by
  induction a generalizing b with
  | nil =>
    cases b <;> simp [arraysEqual]
  | cons x xs ih =>
    cases b with
    | nil => simp [arraysEqual]
    | cons y ys =>
      simp only [arraysEqual, List.length_cons, List.zip_cons_cons, List.all_cons,
        Bool.and_eq_true, beq_iff_eq] at ih ⊢
      constructor
      · rintro ⟨hlen, hxy, hall⟩
        have hlen2 : xs.length = ys.length := by omega
        have htail : xs = ys := (ih ys).mp ⟨hlen2, hall⟩
        rw [hxy, htail]
      · intro hcon
        injection hcon with h1 h2
        subst h1
        subst h2
        exact ⟨rfl, rfl, ((ih xs).mpr rfl).2⟩

theorem flushPartial_inv (st : SSEState) (h : SSEInv st) : SSEInv (flushPartial st) := by
  obtain ⟨hmem, hchain, hlast⟩ := h
  unfold flushPartial
  by_cases h1 : (collectReplies st.aggregated).isEmpty = true
  · simp only [h1, if_true]
    exact ⟨hmem, hchain, hlast⟩
  · by_cases h2 : arraysEqual (collectReplies st.aggregated) st.lastSent = true
    · simp only [h1, h2, Bool.false_eq_true, if_false, if_true]
      exact ⟨hmem, hchain, hlast⟩
    · simp only [h1, h2, Bool.false_eq_true, if_false]
      have hne : collectReplies st.aggregated ≠ [] := by
        intro hcon
        rw [hcon] at h1
        exact h1 rfl
      have hnee : collectReplies st.aggregated ≠ st.lastSent := by
        intro hcon
        exact h2 ((arraysEqual_iff _ _).mpr hcon)
      refine ⟨?_, ?_, ?_⟩
      · intro p hp
        rcases List.mem_append.mp hp with hold | hnew
        · exact hmem p hold
        · rw [List.mem_singleton.mp hnew]
          exact ⟨hne, collectReplies_length_le _⟩
      · rw [List.chain'_append]
        refine ⟨hchain, List.chain'_singleton _, ?_⟩
        intro x hx y hy
        have hyv : y = collectReplies st.aggregated := by
          simpa using hy.symm
        rcases hlast with hsome | ⟨hnil, _⟩
        · rw [hsome] at hx
          have hxv : st.lastSent = x := by
            simpa using hx
          rw [← hxv, hyv]
          intro hcon
          exact hnee hcon.symm
        · rw [hnil] at hx
          simp at hx
      · left
        simp [List.getLast?_concat]

theorem foldl_preserve {σ α : Type} (P : σ → Prop) (f : σ → α → σ)
    (hf : ∀ s a, P s → P (f s a)) :
    ∀ (l : List α) (s : σ), P s → P (l.foldl f s) := by
  intro l
  induction l with
  | nil => intro s h; exact h
  | cons x t ih => intro s h; exact ih _ (hf _ _ h)

theorem handleDataLine_inv (st : SSEState) (line : String) (h : SSEInv st) :
    SSEInv (handleDataLine st line) := by
  unfold handleDataLine
  dsimp only
  split
  · exact h
  · split
    · exact h
    · split
      · exact h
      · split
        · exact h
        · exact flushPartial_inv _ h

theorem handleEvent_inv (st : SSEState) (event : String) (h : SSEInv st) :
    SSEInv (handleEvent st event) := by
  unfold handleEvent
  exact foldl_preserve SSEInv handleDataLine (fun s a hs => handleDataLine_inv s a hs) _ _ h

theorem handleChunk_inv (st : SSEState) (chunk : String) (h : SSEInv st) :
    SSEInv (handleChunk st chunk) := by
  unfold handleChunk
  refine foldl_preserve SSEInv handleEvent (fun s a hs => handleEvent_inv s a hs) _ _ ?_
  exact h

theorem processChunks_inv (chunks : List String) : SSEInv (processChunks chunks) := by
  unfold processChunks
  refine foldl_preserve SSEInv handleChunk (fun s a hs => handleChunk_inv s a hs) _ _ ?_
  exact ⟨by simp [initSSE], by simp [initSSE], Or.inr ⟨rfl, rfl⟩⟩

/-- C10: every emitted partial frame of one model attempt carries between
one and three replies (an empty extraction result is never sent), and no
partial frame repeats the reply list of the immediately preceding partial
frame of the same attempt. -/
theorem partial_frames_nonempty_bounded_distinct (chunks : List String) :
    ((processChunks chunks).emitted.all
      (fun p => decide (1 ≤ p.length) && decide (p.length ≤ 3))) = true ∧
    List.Chain' (fun a b => a ≠ b) (processChunks chunks).emitted := by
  obtain ⟨hmem, hchain, _⟩ := processChunks_inv chunks
  refine ⟨?_, hchain⟩
  simp only [List.all_eq_true, Bool.and_eq_true, decide_eq_true_eq]
  intro p hp
  obtain ⟨hne, hle⟩ := hmem p hp
  exact ⟨List.length_pos.mpr hne, hle⟩

/-- C8: on a non-success status the orchestrator retries with the next
candidate exactly when the status is at least 500 or the extracted message
contains (case-insensitively) one of the four transient-error phrases;
otherwise it immediately emits a terminal error frame carrying exactly that
status and message and attempts no further candidate. -/
theorem retry_policy_characterization (m : String) (status : ℕ) (payload : Option Json)
    (rest : List (String × FetchResult)) (errors : List FailureRecord) :
    (shouldRetry status (extractErrorMessage payload) = true ↔
      (500 ≤ status ∨
        jsIncludes (jsToLower (extractErrorMessage payload)) "provider returned error" = true ∨
        jsIncludes (jsToLower (extractErrorMessage payload)) "no endpoints found" = true ∨
        jsIncludes (jsToLower (extractErrorMessage payload)) "upstream error" = true ∨
        jsIncludes (jsToLower (extractErrorMessage payload)) "temporarily unavailable" = true)) ∧
    runLoop ((m, FetchResult.httpError status payload) :: rest) errors =
      Frame.model m ::
        (if shouldRetry status (extractErrorMessage payload) then
          runLoop rest (errors ++ [⟨m, status, extractErrorMessage payload⟩])
        else [Frame.error (extractErrorMessage payload) status]) := by
  constructor
  · unfold shouldRetry
    by_cases h : 500 ≤ status
    · simp [h]
    · simp [h, Bool.or_eq_true, or_assoc]
  · rfl

theorem data_append (s t : String) : (s ++ t).data = s.data ++ t.data := by
  cases s
  cases t
  rfl

theorem append_mid_ne_empty (a b : String) : a ++ ": " ++ b ≠ "" := by
  intro hcon
  have hlen : (a ++ ": " ++ b).data.length = ("" : String).data.length := by rw [hcon]
  rw [data_append, data_append] at hlen
  have h0 : ("" : String).data.length = 0 := rfl
  have h2 : (": " : String).data.length = 2 := rfl
  rw [List.length_append, List.length_append, h0, h2] at hlen
  omega

theorem joinSep_head_ne (sep : String) (x : String) (l : List String) (hx : x ≠ "") :
    joinSep sep (x :: l) ≠ "" := by
  cases l with
  | nil => simpa [joinSep] using hx
  | cons y t =>
    simp only [joinSep]
    intro hcon
    have hdata := congrArg String.data hcon
    rw [data_append, data_append] at hdata
    simp only [List.append_assoc, List.append_eq_nil] at hdata
    exact hx (String.ext hdata.1)

/-- C9: when every candidate fails, the single terminal error frame carries
the message assembled from all failure records (first message raw, then
model-prefixed messages, joined by the visible separator) and the first
status, or the generic message with 502 when no record was collected.  The
hypothesis that no recorded message is empty holds for every record the
loop ever pushes. -/
theorem exhaustion_error_aggregation (errors : List FailureRecord)
    (h : errors.all (fun r => r.message != "") = true) :
    runLoop [] errors = [exhaustionFrame errors] ∧
    (errors = [] → exhaustionFrame errors =
      Frame.error "模型接口请求失败，请稍后再试。" 502) ∧
    (∀ firstError rest, errors = firstError :: rest →
      exhaustionFrame errors =
        Frame.error
          (joinSep " ｜ " (firstError.message ::
            rest.map (fun e => e.model ++ ": " ++ e.message)))
          firstError.status) := by
  refine ⟨rfl, ?_, ?_⟩
  · intro he
    rw [he]
    rfl
  · intro firstError rest he
    subst he
    have hall := List.all_eq_true.mp h
    unfold exhaustionFrame
    dsimp only
    have hmsgs : ∀ s ∈ firstError.message ::
        rest.map (fun e => e.model ++ ": " ++ e.message), s ≠ "" := by
      intro s hs
      rcases List.mem_cons.mp hs with h1 | h2
      · rw [h1]
        have := hall firstError (List.mem_cons_self _ _)
        simpa using this
      · obtain ⟨e, _, hrw⟩ := List.mem_map.mp h2
        rw [← hrw]
        exact append_mid_ne_empty _ _
    have hfilter : (firstError.message ::
        rest.map (fun e => e.model ++ ": " ++ e.message)).filter (fun s => s != "") =
        firstError.message :: rest.map (fun e => e.model ++ ": " ++ e.message) := by
      rw [List.filter_eq_self]
      intro a ha
      simpa using hmsgs a ha
    rw [hfilter]
    have hne : joinSep " ｜ " (firstError.message ::
        rest.map (fun e => e.model ++ ": " ++ e.message)) ≠ "" :=
      joinSep_head_ne _ _ _ (hmsgs _ (List.mem_cons_self _ _))
    rw [if_neg hne]

/-- Witness for C9 at a concrete two-record failure list. -/
theorem exhaustion_error_aggregation_witness :
    ([FailureRecord.mk "m1" 404 "bad key", FailureRecord.mk "m2" 500 "oops"].all
      (fun r => r.message != "") = true) ∧
    runLoop [] [FailureRecord.mk "m1" 404 "bad key", FailureRecord.mk "m2" 500 "oops"] =
      [Frame.error "bad key ｜ m2: oops" 404] := by
  refine ⟨by decide, ?_⟩
  have h := exhaustion_error_aggregation
    [FailureRecord.mk "m1" 404 "bad key", FailureRecord.mk "m2" 500 "oops"] (by decide)
  rw [h.1, h.2.2 (FailureRecord.mk "m1" 404 "bad key") [FailureRecord.mk "m2" 500 "oops"] rfl]
  decide

theorem clampIntensity_bounds (o : Option ℚ) :
    MIN_INTENSITY ≤ clampIntensity o ∧ clampIntensity o ≤ MAX_INTENSITY := by
  cases o with
  | none =>
    norm_num [clampIntensity, MIN_INTENSITY, MAX_INTENSITY, DEFAULT_INTENSITY]
  | some q =>
    refine ⟨le_min (le_max_right _ _) ?_, min_le_right _ _⟩
    norm_num [MIN_INTENSITY, MAX_INTENSITY]

/-- C2 (amended): the effective intensity is always in [1,10]; it is an
integer whenever the supplied intensity is a string, is missing or
malformed, or is an integer-valued number.  (A non-integer number is clamped
into range but keeps its fractional part, which is what the counterexample
exhibits.) -/
theorem effective_intensity_range :
    (∀ v : IntensityValue,
      MIN_INTENSITY ≤ parsedIntensity v ∧ parsedIntensity v ≤ MAX_INTENSITY) ∧
    (∀ s : String, ∃ n : ℤ, parsedIntensity (IntensityValue.str s) = (n : ℚ)) ∧
    (∃ n : ℤ, parsedIntensity IntensityValue.other = (n : ℚ)) ∧
    (∀ m : ℤ, ∃ n : ℤ, parsedIntensity (IntensityValue.num (m : ℚ)) = (n : ℚ)) := by
  refine ⟨?_, ?_, ?_, ?_⟩
  · intro v
    cases v with
    | num q => exact clampIntensity_bounds (some q)
    | str s => exact clampIntensity_bounds _
    | other =>
      norm_num [parsedIntensity, MIN_INTENSITY, MAX_INTENSITY, DEFAULT_INTENSITY]
  · intro s
    cases h : parseIntJS s with
    | none =>
      refine ⟨6, ?_⟩
      simp only [parsedIntensity, h, Option.map_none', clampIntensity, DEFAULT_INTENSITY]
      norm_num
    | some n =>
      refine ⟨min (max n 1) 10, ?_⟩
      simp only [parsedIntensity, h, Option.map_some', clampIntensity,
        MIN_INTENSITY, MAX_INTENSITY]
      push_cast
      rfl
  · refine ⟨6, ?_⟩
    simp only [parsedIntensity, DEFAULT_INTENSITY]
    norm_num
  · intro m
    refine ⟨min (max m 1) 10, ?_⟩
    simp only [parsedIntensity, clampIntensity, MIN_INTENSITY, MAX_INTENSITY]
    push_cast
    rfl

/-- C2 counterexample: the intensity supplied as the JSON number 5.5 is used
as 5.5 by the pipeline, so the effective intensity is not always an
integer. -/
theorem effective_intensity_not_integer_cx :
    parsedIntensity (IntensityValue.num (11 / 2)) = 11 / 2 ∧
    ¬ ∃ n : ℤ, parsedIntensity (IntensityValue.num (11 / 2)) = (n : ℚ) := by
  have h : parsedIntensity (IntensityValue.num (11 / 2)) = 11 / 2 := by
    simp only [parsedIntensity, clampIntensity, MIN_INTENSITY, MAX_INTENSITY]
    rw [max_eq_left (by norm_num), min_eq_left (by norm_num)]
  refine ⟨h, ?_⟩
  rintro ⟨n, hn⟩
  rw [h] at hn
  have h2 : (11 : ℚ) = (n : ℚ) * 2 := by
    field_simp at hn
    linarith
  have h3 : (11 : ℤ) = n * 2 := by exact_mod_cast h2
  omega

set_option maxHeartbeats 2000000 in
/-- C3: for every integer intensity in [1,10] (and any second intensity at
least as large), the temperature and presence penalty follow the documented
affine formulas rounded to two decimals, are monotonically non-decreasing in
the intensity, and stay within [0.35, 1.00] and [0.1, 0.9] respectively. -/
theorem sampling_params_formula_monotone_bounded (i j : ℤ)
    (hi : 1 ≤ i) (hij : i ≤ j) (hj : j ≤ 10) :
    mapIntensityToTemperature (i : ℚ) =
      toFixed2 (35 / 100 + ((i : ℚ) - 1) / 9 * (65 / 100)) ∧
    mapIntensityToPresencePenalty (i : ℚ) =
      toFixed2 (1 / 10 + ((i : ℚ) - 1) / 9 * (8 / 10)) ∧
    mapIntensityToTemperature (i : ℚ) ≤ mapIntensityToTemperature (j : ℚ) ∧
    mapIntensityToPresencePenalty (i : ℚ) ≤ mapIntensityToPresencePenalty (j : ℚ) ∧
    35 / 100 ≤ mapIntensityToTemperature (i : ℚ) ∧
    mapIntensityToTemperature (i : ℚ) ≤ 1 ∧
    1 / 10 ≤ mapIntensityToPresencePenalty (i : ℚ) ∧
    mapIntensityToPresencePenalty (i : ℚ) ≤ 9 / 10 := by
  have hj1 : 1 ≤ j := le_trans hi hij
  have hi10 : i ≤ 10 := le_trans hij hj
  interval_cases i <;> interval_cases j <;>
    norm_num [mapIntensityToTemperature, mapIntensityToPresencePenalty, toFixed2,
      MIN_INTENSITY, MAX_INTENSITY]

/-- Witness for C3 at intensities 2 and 7. -/
theorem sampling_params_witness :
    ((1 : ℤ) ≤ 2 ∧ (2 : ℤ) ≤ 7 ∧ (7 : ℤ) ≤ 10) ∧
    (mapIntensityToTemperature ((2 : ℤ) : ℚ) =
      toFixed2 (35 / 100 + (((2 : ℤ) : ℚ) - 1) / 9 * (65 / 100)) ∧
    mapIntensityToPresencePenalty ((2 : ℤ) : ℚ) =
      toFixed2 (1 / 10 + (((2 : ℤ) : ℚ) - 1) / 9 * (8 / 10)) ∧
    mapIntensityToTemperature ((2 : ℤ) : ℚ) ≤ mapIntensityToTemperature ((7 : ℤ) : ℚ) ∧
    mapIntensityToPresencePenalty ((2 : ℤ) : ℚ) ≤
      mapIntensityToPresencePenalty ((7 : ℤ) : ℚ) ∧
    35 / 100 ≤ mapIntensityToTemperature ((2 : ℤ) : ℚ) ∧
    mapIntensityToTemperature ((2 : ℤ) : ℚ) ≤ 1 ∧
    1 / 10 ≤ mapIntensityToPresencePenalty ((2 : ℤ) : ℚ) ∧
    mapIntensityToPresencePenalty ((2 : ℤ) : ℚ) ≤ 9 / 10) :=
  ⟨⟨by norm_num, by norm_num, by norm_num⟩,
    sampling_params_formula_monotone_bounded 2 7 (by norm_num) (by norm_num) (by norm_num)⟩

/-- C4: the extractor strategies run in order and the first non-empty result
wins: a strict JSON array parses directly; on prose around a JSON array the
strict parse fails and the slice between the first opening and last closing
bracket parses; and freeform numbered lines fall through to the heuristic
split, which keeps the two reply lines and drops the scene-setting line. -/
theorem extractor_strategy_examples :
    collectReplies "[\"A\",\"B\",\"C\"]" = ["A", "B", "C"] ∧
    collectReplies "Here it is: [\"A\",\"B\"] thanks" = ["A", "B"] ∧
    collectReplies "1. 你行你上啊！\n2. 别光说不练。\n场景：我需要三条回复" =
      ["你行你上啊！", "别光说不练。"] ∧
    tryParseJsonArray (sanitizeContent "Here it is: [\"A\",\"B\"] thanks") = [] ∧
    extractJsonArrayFromText (sanitizeContent "Here it is: [\"A\",\"B\"] thanks") =
      some "[\"A\",\"B\"]" ∧
    tryParseJsonArray
      (sanitizeContent "1. 你行你上啊！\n2. 别光说不练。\n场景：我需要三条回复") = [] :=
  ⟨by decide, by decide, by decide, by decide, by decide, by decide⟩

/-- C5 (amended): in the heuristic line split a line is kept if and only if
it is at least 6 characters long, does not start with one of the five
disallowed meta prefixes, and either contains terminal sentence punctuation
or is at least 8 characters long with at least one CJK ideograph; at most
the first 3 surviving lines are returned and every returned line passes the
filter. -/
theorem likely_reply_characterization :
    (∀ line : String, isLikelyReply line =
      (decide (6 ≤ line.length) &&
        !(disallowedStarts.any (fun p => jsStartsWith line p)) &&
        (hasSentencePunct line || (hasCJK line && decide (8 ≤ line.length))))) ∧
    (∀ raw : String, (fallbackSplit raw).length ≤ 3 ∧
      (fallbackSplit raw).all (fun l => isLikelyReply l) = true) := by
  constructor
  · intro line
    by_cases h6 : line.length < 6 <;>
      cases h2 : disallowedStarts.any (fun p => jsStartsWith line p) <;>
      cases h3 : hasSentencePunct line <;>
      cases h4 : hasCJK line <;>
      by_cases h8 : 8 ≤ line.length <;>
        simp [isLikelyReply, h6, h2, h3, h4, h8, Nat.not_lt] <;>
        omega
  · intro raw
    refine ⟨fallbackSplit_length_le raw, ?_⟩
    rw [List.all_eq_true]
    intro l hl
    unfold fallbackSplit at hl
    by_cases h : raw = ""
    · rw [if_pos h] at hl
      simp at hl
    · rw [if_neg h] at hl
      have hl2 := List.take_subset 3 _ hl
      exact (List.mem_filter.mp hl2).2

/-- C5 counterexample: the two-character line 嗯？ carries terminal sentence
punctuation yet is dropped (shorter than 6 characters), and the line
场景到此为止了吗？ carries terminal punctuation yet is dropped (disallowed
starting word), so a line with terminal punctuation is not always kept. -/
theorem likely_reply_punct_dropped_cx :
    hasSentencePunct "嗯？" = true ∧ isLikelyReply "嗯？" = false ∧
    fallbackSplit "嗯？" = [] ∧
    hasSentencePunct "场景到此为止了吗？" = true ∧
    isLikelyReply "场景到此为止了吗？" = false ∧
    fallbackSplit "场景到此为止了吗？" = [] :=
  ⟨by decide, by decide, by decide, by decide, by decide, by decide⟩

/-- C6: sanitization runs before every extraction strategy; a complete
think block (case-insensitive, attributes allowed, spanning newlines) is
removed; text without such a block passes through unchanged; and in the
unterminated variant where the closing tag has not yet arrived there is no
complete block to remove — the text passes through and the line-level
denylist of the heuristic split still keeps the marker line out of the
extracted replies. -/
theorem sanitize_runs_before_extraction :
    (∀ raw : String, collectReplies raw = extractionStrategies (sanitizeContent raw)) ∧
    sanitizeContent "前文<think>secret\nreasoning</think>后文。" = "前文后文。" ∧
    sanitizeContent "abc<THINK a=1>x</ThInK> def " = "abc def" ∧
    sanitizeContent "no markers here" = "no markers here" ∧
    sanitizeContent "回复一，没问题。\n<think>推理中" = "回复一，没问题。\n<think>推理中" ∧
    collectReplies "回复一，没问题。\n<think>推理中" = ["回复一，没问题。"] :=
  ⟨fun _ => rfl, by decide, by decide, by decide, by decide, by decide⟩

/-! ## Conditional idempotence of the extractor -/

theorem string_mk_data (s : String) : String.mk s.data = s := by
  cases s
  rfl

theorem string_eq_empty_iff (s : String) : s = "" ↔ s.data = [] := by
  constructor
  · intro h
    rw [h]
  · intro h
    exact String.ext h

theorem joinNL_cons_data (x y : String) (rest : List String) :
    (joinNL (x :: y :: rest)).data = x.data ++ '\n' :: (joinNL (y :: rest)).data := by
  show (x ++ "\n" ++ joinNL (y :: rest)).data = _
  rw [data_append, data_append]
  simp [List.append_assoc]

theorem joinNL_ne_empty (x : String) (rest : List String) (hx : x ≠ "") :
    joinNL (x :: rest) ≠ "" := by
  cases rest with
  | nil => simpa [joinNL] using hx
  | cons y t =>
    intro hcon
    have hdata := congrArg String.data hcon
    rw [joinNL_cons_data] at hdata
    simp at hdata

theorem splitRunsCore_step_nil (fuel : ℕ) (cur : List Char) :
    splitRunsCore (fuel + 1) [] cur = [cur.reverse] := rfl

theorem splitRunsCore_step_cons (fuel : ℕ) (c : Char) (t cur : List Char) :
    splitRunsCore (fuel + 1) (c :: t) cur =
      if c == '\n' then cur.reverse :: splitRunsCore fuel (t.dropWhile (· == '\n')) []
      else splitRunsCore fuel t (c :: cur) := rfl

theorem splitRunsCore_no_nl (fuel : ℕ) :
    ∀ (cs cur : List Char), cs.length < fuel → '\n' ∉ cs →
      splitRunsCore fuel cs cur = [cur.reverse ++ cs] := by
  induction fuel with
  | zero =>
    intro cs cur hf hn
    exact absurd hf (Nat.not_lt_zero _)
  | succ n ih =>
    intro cs cur hf hn
    cases cs with
    | nil => simp [splitRunsCore_step_nil]
    | cons c t =>
      have h1 : c ≠ '\n' := fun hcon => hn (hcon ▸ List.mem_cons_self _ _)
      have h2 : '\n' ∉ t := fun hcon => hn (List.mem_cons_of_mem _ hcon)
      rw [splitRunsCore_step_cons, if_neg (by simpa using h1)]
      rw [ih t (c :: cur) (by simpa using Nat.lt_of_succ_lt_succ hf) h2]
      simp [List.reverse_cons, List.append_assoc]

theorem splitRunsCore_append (x : List Char) (hx : '\n' ∉ x) :
    ∀ (r cur : List Char) (fuel : ℕ),
      splitRunsCore (fuel + (x.length + 1)) (x ++ '\n' :: r) cur =
        (cur.reverse ++ x) :: splitRunsCore fuel (r.dropWhile (· == '\n')) [] := by
  induction x with
  | nil =>
    intro r cur fuel
    show splitRunsCore (fuel + 1) ('\n' :: r) cur = _
    rw [splitRunsCore_step_cons]
    simp
  | cons c t ih =>
    intro r cur fuel
    have h1 : c ≠ '\n' := fun hcon => hx (hcon ▸ List.mem_cons_self _ _)
    have h2 : '\n' ∉ t := fun hcon => hx (List.mem_cons_of_mem _ hcon)
    have harith : fuel + ((c :: t).length + 1) = (fuel + (t.length + 1)) + 1 := by
      simp [List.length_cons]
      omega
    rw [List.cons_append, harith, splitRunsCore_step_cons, if_neg (by simpa using h1)]
    rw [ih h2 r (c :: cur) fuel]
    simp [List.reverse_cons, List.append_assoc]

theorem splitRuns_joinNL (xs : List String) (hne : xs ≠ [])
    (h : ∀ x ∈ xs, x ≠ "" ∧ '\n' ∉ x.data) :
    splitRuns (joinNL xs) = xs := by
  induction xs with
  | nil => exact absurd rfl hne
  | cons x rest ih =>
    cases rest with
    | nil =>
      obtain ⟨hx1, hx2⟩ := h x (List.mem_cons_self _ _)
      show splitRuns x = [x]
      unfold splitRuns
      rw [splitRunsCore_no_nl _ _ _ (by omega) hx2]
      simp [string_mk_data]
    | cons y rest2 =>
      obtain ⟨hx1, hx2⟩ := h x (List.mem_cons_self _ _)
      unfold splitRuns
      rw [joinNL_cons_data]
      have hf : (x.data ++ '\n' :: (joinNL (y :: rest2)).data).length + 1 =
          ((joinNL (y :: rest2)).data.length + 1) + (x.data.length + 1) := by
        simp [List.length_append]
        omega
      rw [hf, splitRunsCore_append x.data hx2 (joinNL (y :: rest2)).data []
        ((joinNL (y :: rest2)).data.length + 1)]
      have hhead : (joinNL (y :: rest2)).data.dropWhile (· == '\n') =
          (joinNL (y :: rest2)).data := by
        obtain ⟨hy1, hy2⟩ := h y (List.mem_cons_of_mem _ (List.mem_cons_self _ _))
        have hz : ∃ z, (joinNL (y :: rest2)).data = y.data ++ z := by
          cases rest2 with
          | nil => exact ⟨[], by simp [joinNL]⟩
          | cons w ws => exact ⟨'\n' :: (joinNL (w :: ws)).data, joinNL_cons_data y w ws⟩
        obtain ⟨z, hz⟩ := hz
        rw [hz]
        cases hyd : y.data with
        | nil =>
          exact absurd ((string_eq_empty_iff y).mpr hyd) hy1
        | cons c cs =>
          have hc : c ≠ '\n' := fun hcon => hy2 (by rw [hyd, hcon]; exact List.mem_cons_self _ _)
          simp [List.dropWhile_cons, hc]
      rw [hhead]
      have hih := ih (by simp) (fun a ha => h a (List.mem_cons_of_mem _ ha))
      unfold splitRuns at hih
      simp only [List.map_cons, List.nil_append, string_mk_data] at hih ⊢
      rw [hih]
      simp [string_mk_data]

theorem map_fixed_eq_self (f : String → String) (l : List String)
    (h : ∀ x ∈ l, f x = x) : l.map f = l := by
  induction l with
  | nil => rfl
  | cons x t ih =>
    simp [h x (List.mem_cons_self _ _), ih (fun a ha => h a (List.mem_cons_of_mem _ ha))]

theorem replyFixedB_spec (x : String) (h : replyFixedB x = true) :
    x ≠ "" ∧ '\n' ∉ x.data ∧ stripLineMarkers x = x ∧ isForbiddenLine x = false ∧
    hasForbiddenKeyword x = false ∧ isLikelyReply x = true := by
  simp only [replyFixedB, Bool.and_eq_true, bne_iff_ne, ne_eq, beq_iff_eq,
    Bool.not_eq_true'] at h
  obtain ⟨⟨⟨⟨⟨h1, h2⟩, h3⟩, h4⟩, h5⟩, h6⟩ := h
  refine ⟨h1, ?_, h3, h4, h5, h6⟩
  intro hm
  have h2n : ¬ '\n' ∈ x.data := by simpa using h2
  exact h2n hm

theorem fallbackSplit_joinNL (x0 : String) (rest0 : List String)
    (hlen : (x0 :: rest0).length ≤ 3)
    (hx : (x0 :: rest0).all replyFixedB = true) :
    fallbackSplit (joinNL (x0 :: rest0)) = x0 :: rest0 := by
  have hall := List.all_eq_true.mp hx
  have hspec := fun a ha => replyFixedB_spec a (hall a ha)
  have hjne : joinNL (x0 :: rest0) ≠ "" :=
    joinNL_ne_empty _ _ (hspec x0 (List.mem_cons_self _ _)).1
  unfold fallbackSplit
  rw [if_neg hjne]
  rw [splitRuns_joinNL _ (by simp) (fun a ha => ⟨(hspec a ha).1, (hspec a ha).2.1⟩)]
  rw [map_fixed_eq_self _ _ (fun a ha => (hspec a ha).2.2.1)]
  have f1 : List.filter (fun l => l != "") (x0 :: rest0) = x0 :: rest0 :=
    List.filter_eq_self.mpr (fun a ha => by simpa using (hspec a ha).1)
  have f2 : List.filter (fun l => !(isForbiddenLine l)) (x0 :: rest0) = x0 :: rest0 :=
    List.filter_eq_self.mpr (fun a ha => by simp [(hspec a ha).2.2.2.1])
  have f3 : List.filter (fun l => !(hasForbiddenKeyword l)) (x0 :: rest0) = x0 :: rest0 :=
    List.filter_eq_self.mpr (fun a ha => by simp [(hspec a ha).2.2.2.2.1])
  have f4 : List.filter (fun l => isLikelyReply l) (x0 :: rest0) = x0 :: rest0 :=
    List.filter_eq_self.mpr (fun a ha => (hspec a ha).2.2.2.2.2)
  rw [f1, f2, f3, f4]
  exact List.take_of_length_le hlen

/-- C7 (amended): the extractor is not idempotent in general (see the
counterexample), but re-running it on the newline concatenation of its own
output reproduces that output whenever the concatenation is a fixed point of
sanitization, neither JSON strategy fires on it, and every reply individually
passes the heuristic line pipeline unchanged. -/
theorem extractor_conditional_idempotence (t : String)
    (hs : sanitizeContent (joinNL (collectReplies t)) = joinNL (collectReplies t))
    (hp : tryParseJsonArray (joinNL (collectReplies t)) = [])
    (he : extractFailsB (joinNL (collectReplies t)) = true)
    (hx : (collectReplies t).all replyFixedB = true) :
    collectReplies (joinNL (collectReplies t)) = collectReplies t := by
  cases hcase : collectReplies t with
  | nil => decide
  | cons x0 rest0 =>
    rw [hcase] at hs hp he hx
    show extractionStrategies (sanitizeContent (joinNL (x0 :: rest0))) = x0 :: rest0
    rw [hs]
    unfold extractionStrategies
    dsimp only
    simp only [hp, ne_eq, not_true_eq_false, if_false]
    have hlen : (x0 :: rest0).length ≤ 3 := hcase ▸ collectReplies_length_le t
    cases hex : extractJsonArrayFromText (joinNL (x0 :: rest0)) with
    | none =>
      simp only [hex]
      exact fallbackSplit_joinNL x0 rest0 hlen hx
    | some e =>
      have hpe : tryParseJsonArray e = [] := by
        unfold extractFailsB at he
        rw [hex] at he
        simpa using he
      simp only [hex, hpe, ne_eq, not_true_eq_false, if_false]
      exact fallbackSplit_joinNL x0 rest0 hlen hx

/-- C7 counterexample: on input consisting of a JSON array with the single
element A the extractor returns that element, but re-running it on the
concatenation of its own output returns the empty list, so idempotence
fails. -/
theorem extractor_not_idempotent_cx :
    collectReplies "[\"A\"]" = ["A"] ∧
    joinNL (collectReplies "[\"A\"]") = "A" ∧
    collectReplies (joinNL (collectReplies "[\"A\"]")) = [] :=
  ⟨by decide, by decide, by decide⟩

/-- Witness for C7 on a strict JSON array of two Chinese replies, whose
concatenation satisfies every side condition. -/
theorem extractor_conditional_idempotence_witness :
    (sanitizeContent (joinNL (collectReplies "[\"你行你上啊！\",\"别光说不练。\"]")) =
      joinNL (collectReplies "[\"你行你上啊！\",\"别光说不练。\"]") ∧
     tryParseJsonArray (joinNL (collectReplies "[\"你行你上啊！\",\"别光说不练。\"]")) = [] ∧
     extractFailsB (joinNL (collectReplies "[\"你行你上啊！\",\"别光说不练。\"]")) = true ∧
     (collectReplies "[\"你行你上啊！\",\"别光说不练。\"]").all replyFixedB = true) ∧
    collectReplies (joinNL (collectReplies "[\"你行你上啊！\",\"别光说不练。\"]")) =
      collectReplies "[\"你行你上啊！\",\"别光说不练。\"]" :=
  ⟨⟨by decide, by decide, by decide, by decide⟩,
    extractor_conditional_idempotence "[\"你行你上啊！\",\"别光说不练。\"]"
      (by decide) (by decide) (by decide) (by decide)⟩
